import Mathlib

/-!
Shallow embedding of `src/main.py` (macOS Voice Memos exporter): the
interactive key-capture loop, label sanitization, timestamp conversion,
duration formatting, table rendering, path planning and the per-record
export engine, together with theorems settling the specification claims.
-/

namespace VoiceMemos

/-- Terminal input mode. `prior` is the mode saved in `old` before the
capture; `raw` is the no-echo cbreak mode installed by `tcsetattr` plus
`tty.setcbreak` (src/main.py lines 196-201). -/
inductive TermMode where
  | prior
  | raw
deriving DecidableEq

/-- Outcome of the key-capture loop of `main` (src/main.py lines 202-207):
the accepted key (`none` when the read raised, e.g. at end of input, and the
exception propagated), the terminal mode after the loop ends, and the mode
that was in effect at each attempted read. -/
structure ReadOutcome where
  result : Option Nat
  finalMode : TermMode
  readModes : List TermMode
deriving DecidableEq

/-- The `while key not in (10, 27)` loop (src/main.py lines 202-207): each
iteration reads one key in the current terminal mode and, in a `finally`
clause, restores the saved mode; an exhausted input models end-of-file,
where `ord` raises and the `finally` clause still restores the saved mode
before the exception propagates. -/
def readLoop : List Nat → TermMode → ReadOutcome
  | [], m => ⟨none, TermMode.prior, [m]⟩
  | k :: ks, m =>
      if k = 10 ∨ k = 27 then ⟨some k, TermMode.prior, [m]⟩
      else
        ⟨(readLoop ks TermMode.prior).result,
          (readLoop ks TermMode.prior).finalMode,
          m :: (readLoop ks TermMode.prior).readModes⟩

/-- One interactive confirmation read (src/main.py lines 194-207): the
terminal is switched once to raw no-echo mode, then the key loop runs with
`key = 0`, so at least one read always happens. -/
def captureKey (input : List Nat) : ReadOutcome :=
  readLoop input TermMode.raw

/-- Label sanitization (src/main.py line 163): encode with the ascii codec
and the ignore error handler, decode back, then replace slashes with
underscores. The ascii codec with errors set to ignore drops exactly the
characters whose code point is 128 or above; afterwards every slash is
replaced by an underscore. -/
def sanitizeLabel (s : String) : String :=
  String.mk ((s.toList.filter (fun c => c.toNat < 128)).map
    (fun c => if c = '/' then '_' else c))

/-- Ambiguous-label heuristic (src/main.py lines 164-166): when the
sanitized label contains both a literal T and a literal Z it is replaced by
the fixed string VoiceMemo. -/
def finalLabel (rawLabel : String) : String :=
  if 'T' ∈ (sanitizeLabel rawLabel).toList ∧ 'Z' ∈ (sanitizeLabel rawLabel).toList then
    "VoiceMemo"
  else sanitizeLabel rawLabel

/-- Python string formatting with a plain width field on a string value:
left-justify and pad with spaces to the given width, never truncate
(src/main.py line 115 builds such format fields for each column). -/
def padCell (w : Nat) (s : String) : String :=
  s ++ String.mk (List.replicate (w - s.length) ' ')

/-- One table body row (src/main.py lines 108-123): the five cells, each
left-justified to its column width (19, 11, 32, 60, 12 — lines 83-92),
joined with box-drawing separators and wrapped with border characters. -/
def bodyRow (c0 c1 c2 c3 c4 : String) : String :=
  "│ " ++ padCell 19 c0 ++ " │ " ++ padCell 11 c1 ++ " │ " ++ padCell 32 c2 ++
    " │ " ++ padCell 60 c3 ++ " │ " ++ padCell 12 c4 ++ " │"

/-- Path shortening (src/main.py lines 178-185): keep the path when its
length is below width minus 3, otherwise an ellipsis followed by the last
width minus 3 characters. -/
def truncLast (w : Nat) (s : String) : String :=
  if s.length < w - 3 then s
  else "..." ++ String.mk (s.toList.drop (s.length - (w - 3)))

/-- The composed body-row rendering of `main`: the two path cells are
shortened first (src/main.py lines 178-185), the other three cells are
passed to the row formatter unchanged (lines 188-218). -/
def renderRecordRow (c0 c1 c2 c3 c4 : String) : String :=
  bodyRow c0 c1 (truncLast 32 c2) (truncLast 60 c3) c4

/-- Offset between the Unix epoch and the reference epoch of the recording
database (src/main.py line 95). Real-valued quantities are modeled exactly
as rationals. -/
def dtOffset : ℚ := 978307200.825232

/-- A timezone-aware date/time: the absolute instant in seconds since the
Unix epoch together with the display timezone offset. -/
structure ZonedDateTime where
  instant : ℚ
  tzOffsetSeconds : Int
deriving DecidableEq

/-- Models `datetime.fromtimestamp(t, tz=timezone("UTC"))`
(src/main.py line 157). -/
def fromtimestampUTC (t : ℚ) : ZonedDateTime := ⟨t, 0⟩

/-- Models `date_utc.astimezone(local_tz)` (src/main.py line 158): the same
absolute instant displayed in another timezone. -/
def astimezone (d : ZonedDateTime) (tz : Int) : ZonedDateTime :=
  ⟨d.instant, tz⟩

/-- The timestamp conversion of `main` (src/main.py lines 157-158): add the
fixed offset to the raw database value, interpret the sum as a Unix-epoch
UTC instant, then convert to the local timezone. -/
def convertTimestamp (x : ℚ) (tz : Int) : ZonedDateTime :=
  astimezone (fromtimestampUTC (x + dtOffset)) tz

/-- Splits a character list at the last occurrence of `sep` (modeling the
Python `rfind`-based splits): the first component is the prefix up to and
including the last `sep` (empty when `sep` does not occur), the second the
suffix after it. -/
def splitAtLast (sep : Char) : List Char → List Char × List Char
  | [] => ([], [])
  | c :: cs =>
      if sep ∈ cs then
        (c :: (splitAtLast sep cs).1, (splitAtLast sep cs).2)
      else if c = sep then ([c], cs)
      else ([], c :: cs)

/-- Models `os.path.join` for POSIX paths with two components
(used in src/main.py lines 167-175): an absolute second component replaces
the first; otherwise the two are concatenated, inserting a slash unless the
first component is empty or already ends with a slash. -/
def osJoinL (a b : List Char) : List Char :=
  if b.head? = some '/' then b
  else if a = [] ∨ a.getLast? = some '/' then a ++ b
  else a ++ '/' :: b

/-- String wrapper around `osJoinL`. -/
def osJoin (a b : String) : String := String.mk (osJoinL a.toList b.toList)

/-- Extension part of `os.path.splitext` computed from the last path
component: the suffix starting at the last dot, provided a dot occurs in
the component and the component characters before that dot are not all
dots (leading dots mark a hidden file, not an extension). -/
def extFromBase (base : List Char) : List Char :=
  if (splitAtLast '.' base).1 ≠ [] ∧
      (splitAtLast '.' base).1.dropLast.any (fun c => c ≠ '.') then
    '.' :: (splitAtLast '.' base).2
  else []

/-- Models `os.path.splitext` (used in src/main.py lines 172-174): the
extension is a suffix of the whole path, so the root is the path with the
extension removed. -/
def splitextL (p : List Char) : List Char × List Char :=
  (p.take (p.length - (extFromBase (splitAtLast '/' p).2).length),
    extFromBase (splitAtLast '/' p).2)

/-- String wrapper around `splitextL`. -/
def splitext (p : String) : String × String :=
  (String.mk (splitextL p.toList).1, String.mk (splitextL p.toList).2)

/-- Path planning of `main` (src/main.py lines 167-177) for one record.
`label` is the already-sanitized final label; `localTimeStr` is the result
of `strftime` on the configured date format; `rel` is the raw relative
source path from the database, where the empty string models an absent
value. Returns the pair `path_old`, `path_new`. -/
def planPaths (recordingsDir exportDir : String) (dateInName : Bool)
    (localTimeStr label rel : String) : String × String :=
  (if rel ≠ "" then osJoin recordingsDir rel else "",
    if (if rel ≠ "" then osJoin recordingsDir rel else "") ≠ "" then
      osJoin exportDir
        (if dateInName then
          localTimeStr ++ "_" ++ label ++
            (splitext (if rel ≠ "" then osJoin recordingsDir rel else "")).2
        else
          label ++ (splitext (if rel ≠ "" then osJoin recordingsDir rel else "")).2)
    else "")

/-- The new-filename rule as the specification words it (spec section 4.2,
step 5): the extension, including the dot, is extracted from
`relativeSourcePath` itself. -/
def newFilenameSpec (dateInName : Bool) (localTimeStr label rel : String) : String :=
  if dateInName then localTimeStr ++ "_" ++ label ++ (splitext rel).2
  else label ++ (splitext rel).2

/-- Contents and timestamps of one file on disk. -/
structure FileData where
  contents : List Nat
  atime : Int
  mtime : Int
deriving DecidableEq

/-- The filesystem, as a map from paths to file data. -/
def FS : Type := String → Option FileData

/-- Writing one file: `copyfile` followed by `os.utime` produces the new
data at the destination path. -/
def fsUpdate (fs : FS) (p : String) (f : FileData) : FS :=
  fun q => if q = p then some f else fs q

/-- Result of processing one record: the filesystem afterwards, the status
text of the finalized row, and whether the interactive key capture ran. -/
structure StepResult where
  fs : FS
  status : String
  usedCapture : Bool

/-- Python `round` on an exact rational value: round half to even. -/
def pyRound (q : ℚ) : Int :=
  if q - Int.floor q < 1/2 then Int.floor q
  else if 1/2 < q - Int.floor q then Int.floor q + 1
  else if Int.floor q % 2 = 0 then Int.floor q else Int.floor q + 1

/-- Models `time.mktime(date.timetuple())` (src/main.py line 212) on the
absolute instant of the local datetime: `datetime.fromtimestamp` keeps the
instant to whole microseconds (round half to even), `timetuple()` then
truncates to whole seconds, and `mktime` maps the local wall-clock time
back to Unix seconds (local timezone offsets are whole seconds). -/
def mktimeWhole (instant : ℚ) : Int :=
  Int.floor ((pyRound (instant * 1000000) : ℚ) / 1000000)

/-- Per-record action of `main` (src/main.py lines 188-218). When
`path_old` is empty the row is finalized as No File without touching the
terminal or the filesystem. Otherwise the key is 10 in bulk mode, else the
capture loop runs on the pending input keys. Key 10 copies the source
bytes to `path_new` and sets both file times to the whole-second local
timestamp; key 27 finalizes the row as Not Exported. `none` models a fatal
uncaught exception (end of input during capture, or a failing copy). -/
def processRecord (bulk : Bool) (input : List Nat) (fs : FS)
    (pathOld pathNew : String) (instant : ℚ) : Option StepResult :=
  if pathOld = "" then some ⟨fs, "No File", false⟩
  else
    match (if bulk then (some 10, false) else ((captureKey input).result, true)) with
    | (none, _) => none
    | (some k, used) =>
        if k = 10 then
          match fs pathOld with
          | none => none
          | some f =>
              some ⟨fsUpdate fs pathNew
                  ⟨f.contents, mktimeWhole instant, mktimeWhole instant⟩,
                "Exported!", used⟩
        else some ⟨fs, "Not Exported", used⟩

/-- Python `"%02d"` formatting for values below 100 (`timedelta.__str__`
prints minutes and seconds this way, both below 60). -/
def fmt02 (n : Nat) : String :=
  String.mk [Nat.digitChar (n / 10 % 10), Nat.digitChar (n % 10)]

/-- Python `"%06d"` formatting for values below 1000000
(`timedelta.__str__` prints microseconds this way). -/
def fmt06 (n : Nat) : String :=
  String.mk [Nat.digitChar (n / 100000 % 10), Nat.digitChar (n / 10000 % 10),
    Nat.digitChar (n / 1000 % 10), Nat.digitChar (n / 100 % 10),
    Nat.digitChar (n / 10 % 10), Nat.digitChar (n % 10)]

/-- Models `str(timedelta(...))` (CPython `timedelta.__str__`) for a
nonnegative total duration in whole microseconds: hours without padding,
minutes and seconds zero-padded to two digits, a day count prefix when at
least one day, and a six-digit microsecond fraction when nonzero. -/
def tdStr (t : Nat) : String :=
  (if t / 1000000 / 86400 = 0 then
      Nat.repr (t / 1000000 / 3600 % 24) ++ ":" ++ fmt02 (t / 1000000 / 60 % 60) ++
        ":" ++ fmt02 (t / 1000000 % 60)
    else
      Nat.repr (t / 1000000 / 86400) ++
        (if t / 1000000 / 86400 = 1 then " day, " else " days, ") ++
        (Nat.repr (t / 1000000 / 3600 % 24) ++ ":" ++ fmt02 (t / 1000000 / 60 % 60) ++
          ":" ++ fmt02 (t / 1000000 % 60))) ++
    (if t % 1000000 = 0 then "" else "." ++ fmt06 (t % 1000000))

/-- The final fix-up of src/main.py line 162: prepend "0" when the duration
string has length 10 (single digit hour). -/
def padHour (s1 : String) : String :=
  if s1.length = 10 then "0" ++ s1 else s1

/-- The duration cell of `main` (src/main.py lines 160-162) for a duration
of `t` whole microseconds: keep two fractional digits of `str(timedelta)`
(everything up to two characters past the last dot), append ".00" when no
dot was printed, and prepend "0" when the result has length 10 (single
digit hour). -/
def durationStr (t : Nat) : String :=
  padHour
    (if '.' ∈ (tdStr t).toList then
      String.mk ((splitAtLast '.' (tdStr t).toList).1 ++
        (splitAtLast '.' (tdStr t).toList).2.take 2)
    else tdStr t ++ ".00")

/-- The duration display for a raw seconds value, modeled as an exact
rational: `timedelta(seconds=x)` holds the duration in whole microseconds,
rounding half to even (src/main.py line 160). -/
def durationDisplay (x : ℚ) : String :=
  durationStr (pyRound (x * 1000000)).toNat

section Theorems

/-- Unfolding lemma: `toList` of an appended string. -/
theorem toList_append (a b : String) : (a ++ b).toList = a.toList ++ b.toList :=
  String.data_append a b

/-- Packing an appended character list appends the packed strings. -/
theorem mk_append_eq (l1 l2 : List Char) :
    String.mk (l1 ++ l2) = String.mk l1 ++ String.mk l2 := rfl

/-- Packing the character list of a string gives the string back. -/
theorem mk_toList_eq (s : String) : String.mk s.toList = s := rfl

/-- The packed singleton dot list is the dot string. -/
theorem mk_dot_eq : String.mk ['.'] = "." := by decide

/-- When the separator does not occur, the split keeps the whole list in
the second component. -/
theorem splitAtLast_of_not_mem (sep : Char) (l : List Char) (h : sep ∉ l) :
    splitAtLast sep l = ([], l) := by
  induction l with
  | nil => rfl
  | cons x xs ih =>
      have h1 : sep ∉ xs := fun hm => h (List.mem_cons_of_mem _ hm)
      have h2 : ¬x = sep := by
        intro he
        exact h (by rw [he]; exact List.mem_cons_self _ _)
      simp [splitAtLast, h1, h2, ih h1]

/-- Splitting at the last separator ignores a prefix when the separator
occurs in the suffix. -/
theorem splitAtLast_append_mem (sep : Char) (a b : List Char) (h : sep ∈ b) :
    splitAtLast sep (a ++ b) =
      (a ++ (splitAtLast sep b).1, (splitAtLast sep b).2) := by
  induction a with
  | nil => simp
  | cons x xs ih =>
      have hx : sep ∈ xs ++ b := List.mem_append_right _ h
      simp [splitAtLast, hx, ih]

/-- Splitting at the last separator when it is the explicit final
occurrence. -/
theorem splitAtLast_append_sep (sep : Char) (a b : List Char) (h : sep ∉ b) :
    splitAtLast sep (a ++ sep :: b) = (a ++ [sep], b) := by
  induction a with
  | nil => simp [splitAtLast, h]
  | cons x xs ih =>
      have hx : sep ∈ xs ++ sep :: b :=
        List.mem_append_right _ (List.mem_cons_self _ _)
      simp [splitAtLast, hx, ih]

/-- The last path component of a joined path is the last component of the
second argument (for path planning the joined relative path keeps its file
name, hence its extension). -/
theorem basename_osJoinL (a b : List Char) :
    (splitAtLast '/' (osJoinL a b)).2 = (splitAtLast '/' b).2 := by
  unfold osJoinL
  by_cases h1 : b.head? = some '/'
  · rw [if_pos h1]
  · rw [if_neg h1]
    by_cases h2 : a = [] ∨ a.getLast? = some '/'
    · rw [if_pos h2]
      by_cases hm : '/' ∈ b
      · rw [splitAtLast_append_mem _ _ _ hm]
      · rcases h2 with h2 | h2
        · rw [h2, List.nil_append]
        · have hne : a ≠ [] := by intro hee; rw [hee] at h2; simp at h2
          have hlast := List.dropLast_append_getLast hne
          rw [List.getLast?_eq_getLast a hne] at h2
          injection h2 with h3
          rw [h3] at hlast
          calc (splitAtLast '/' (a ++ b)).2
              = (splitAtLast '/' ((a.dropLast ++ ['/']) ++ b)).2 := by rw [hlast]
            _ = (splitAtLast '/' (a.dropLast ++ '/' :: b)).2 := by
                  rw [List.append_assoc, List.singleton_append]
            _ = b := by rw [splitAtLast_append_sep _ _ _ hm]
            _ = (splitAtLast '/' b).2 := by rw [splitAtLast_of_not_mem _ _ hm]
    · rw [if_neg h2]
      by_cases hm : '/' ∈ b
      · have hm2 : '/' ∈ '/' :: b := List.mem_cons_self _ _
        rw [splitAtLast_append_mem _ _ _ hm2]
        show (splitAtLast '/' ('/' :: b)).2 = _
        simp [splitAtLast, hm]
      · rw [splitAtLast_append_sep _ _ _ hm, splitAtLast_of_not_mem _ _ hm]

/-- The extension of a joined path equals the extension of its second
component. -/
theorem splitext_snd_osJoinL (a b : List Char) :
    (splitextL (osJoinL a b)).2 = (splitextL b).2 := by
  show extFromBase (splitAtLast '/' (osJoinL a b)).2 =
    extFromBase (splitAtLast '/' b).2
  rw [basename_osJoinL]

/-- Joining onto a non-empty first component never yields an empty path. -/
theorem osJoinL_ne_nil_left (a b : List Char) (ha : a ≠ []) :
    osJoinL a b ≠ [] := by
  unfold osJoinL
  by_cases h1 : b.head? = some '/'
  · rw [if_pos h1]
    intro he
    rw [he] at h1
    simp at h1
  · rw [if_neg h1]
    by_cases h2 : a = [] ∨ a.getLast? = some '/'
    · rw [if_pos h2]; simp [ha]
    · rw [if_neg h2]; simp

/-- Joining a non-empty second component never yields an empty path. -/
theorem osJoinL_ne_nil_right (a b : List Char) (hb : b ≠ []) :
    osJoinL a b ≠ [] := by
  unfold osJoinL
  by_cases h1 : b.head? = some '/'
  · rw [if_pos h1]; exact hb
  · rw [if_neg h1]
    by_cases h2 : a = [] ∨ a.getLast? = some '/'
    · rw [if_pos h2]; simp [hb]
    · rw [if_neg h2]; simp

/-- A string is empty exactly when its character list is empty. -/
theorem string_eq_empty_iff (s : String) : s = "" ↔ s.toList = [] := by
  constructor
  · intro h; rw [h]; rfl
  · intro h
    cases s with
    | mk data =>
        have hd : data = [] := h
        rw [hd]

/-- Claim C1, counterexample: with input key 65 (a discarded key) followed
by 10 (Enter), the second read of the capture loop runs with the terminal
already restored to its prior mode, so the terminal is not in raw
no-echo mode for the whole duration of the read. -/
theorem c1_counterexample :
    (captureKey [65, 10]).readModes = [TermMode.raw, TermMode.prior] ∧
      TermMode.prior ≠ TermMode.raw := by decide

/-- Claim C1, amended: the capture loop enters raw no-echo mode once before
its first read; the prior terminal mode is restored after every single
read — on success and on an exception alike — so the capture never ends
with the terminal left in raw mode; but every repeated read after a
discarded key already runs in the restored prior mode. -/
theorem c1_restoration_amended (input : List Nat) :
    (captureKey input).finalMode = TermMode.prior ∧
      (captureKey input).readModes.head? = some TermMode.raw ∧
      ∀ m ∈ (captureKey input).readModes.tail, m = TermMode.prior := by
  have hprior : ∀ ks : List Nat, ∀ m ∈ (readLoop ks TermMode.prior).readModes,
      m = TermMode.prior := by
    intro ks
    induction ks with
    | nil => intro m hm; simpa [readLoop] using hm
    | cons k ks ih =>
        intro m hm
        by_cases hk : k = 10 ∨ k = 27
        · simp [readLoop, hk] at hm; simp [hm]
        · simp only [readLoop, if_neg hk, List.mem_cons] at hm
          rcases hm with hm | hm
          · exact hm
          · exact ih m hm
  have hfinal : ∀ ks : List Nat, ∀ m, (readLoop ks m).finalMode = TermMode.prior := by
    intro ks
    induction ks with
    | nil => intro m; rfl
    | cons k ks ih =>
        intro m
        by_cases hk : k = 10 ∨ k = 27
        · simp [readLoop, hk]
        · simp [readLoop, hk, ih]
  refine ⟨hfinal input TermMode.raw, ?_, ?_⟩
  · cases input with
    | nil => rfl
    | cons k ks =>
        by_cases hk : k = 10 ∨ k = 27
        · simp [captureKey, readLoop, hk]
        · simp [captureKey, readLoop, hk]
  · cases input with
    | nil => intro m hm; simp [captureKey, readLoop] at hm
    | cons k ks =>
        by_cases hk : k = 10 ∨ k = 27
        · intro m hm; simp [captureKey, readLoop, hk] at hm
        · intro m hm
          simp only [captureKey, readLoop, if_neg hk, List.tail_cons] at hm
          exact hprior ks m hm

/-- Claim C1 witness at a concrete input stream. -/
theorem c1_restoration_amended_witness :
    (captureKey [65, 10]).finalMode = TermMode.prior ∧
      (captureKey [65, 10]).readModes.head? = some TermMode.raw ∧
      ∀ m ∈ (captureKey [65, 10]).readModes.tail, m = TermMode.prior :=
  c1_restoration_amended [65, 10]

/-- Claim C3, counterexample: the tab character (code point 9, a control
character well below the printable range) survives sanitization, because
the code drops only characters with code point 128 or above. -/
theorem c3_counterexample :
    Char.ofNat 9 ∈ (sanitizeLabel (String.mk ['a', Char.ofNat 9, 'b'])).toList ∧
      (Char.ofNat 9).toNat < 32 := by decide

/-- Claim C3, amended: sanitization keeps exactly the characters with code
point below 128 (so ASCII control characters are kept, and printable
characters outside ASCII are dropped) and replaces every slash by an
underscore: every character of the sanitized label has code point below
128, is not a slash, and is either a character of the input or the
underscore substituted for a slash. -/
theorem c3_sanitize_amended (s : String) (c : Char)
    (h : c ∈ (sanitizeLabel s).toList) :
    c.toNat < 128 ∧ c ≠ '/' ∧ (c ∈ s.toList ∨ c = '_') := by
  have hdata : (sanitizeLabel s).toList =
      (s.toList.filter (fun c => c.toNat < 128)).map
        (fun c => if c = '/' then '_' else c) := rfl
  rw [hdata] at h
  rcases List.mem_map.mp h with ⟨a, ha, hac⟩
  rcases List.mem_filter.mp ha with ⟨hmem, hlt⟩
  by_cases hslash : a = '/'
  · subst hslash
    simp only [if_pos rfl] at hac
    subst hac
    refine ⟨by decide, by decide, Or.inr rfl⟩
  · rw [if_neg hslash] at hac
    subst hac
    exact ⟨by simpa using hlt, hslash, Or.inl hmem⟩

/-- Claim C3 witness at a concrete input. -/
theorem c3_sanitize_amended_witness :
    ('a' ∈ (sanitizeLabel "abc").toList) ∧
      ('a'.toNat < 128 ∧ 'a' ≠ '/' ∧ ('a' ∈ "abc".toList ∨ 'a' = '_')) :=
  ⟨by decide, c3_sanitize_amended "abc" 'a' (by decide)⟩

/-- Claim C7: whenever the sanitized label contains both a literal T and a
literal Z, the label used by path planning is exactly VoiceMemo,
independently of any naming configuration. -/
theorem c7_timestamp_label (s : String)
    (hT : 'T' ∈ (sanitizeLabel s).toList)
    (hZ : 'Z' ∈ (sanitizeLabel s).toList) :
    finalLabel s = "VoiceMemo" := by
  unfold finalLabel
  rw [if_pos ⟨hT, hZ⟩]

/-- Claim C7 witness at the concrete scenario label of the specification. -/
theorem c7_timestamp_label_witness :
    ('T' ∈ (sanitizeLabel "2023-05-01T10:00:00Z").toList) ∧
      ('Z' ∈ (sanitizeLabel "2023-05-01T10:00:00Z").toList) ∧
      finalLabel "2023-05-01T10:00:00Z" = "VoiceMemo" :=
  ⟨by decide, by decide, c7_timestamp_label _ (by decide) (by decide)⟩

/-- Claim C4: the conversion adds the fixed offset constant to the raw
epoch value, yields that sum as the Unix-epoch UTC instant, displays it in
the requested local timezone, and subtracting the offset from the UTC
instant round-trips back to the input. -/
theorem c4_offset_roundtrip (x : ℚ) (tz : Int) :
    (convertTimestamp x tz).instant - dtOffset = x ∧
      (convertTimestamp x tz).instant = x + dtOffset ∧
      (convertTimestamp x tz).tzOffsetSeconds = tz := by
  refine ⟨?_, rfl, rfl⟩
  show x + dtOffset - dtOffset = x
  ring

set_option maxRecDepth 4000 in
/-- Claim C2, counterexample: the row formatter pads cells to their column
widths but never truncates them, and only the two path cells are shortened
beforehand, so a status cell longer than its column width (12) changes the
length of the rendered row. -/
theorem c2_counterexample :
    (renderRecordRow "" "" "" "" "XXXXXXXXXXXXX").length ≠
      (renderRecordRow "" "" "" "" "").length := by decide

/-- String-level variant: joining onto a non-empty directory never yields
an empty path. -/
theorem osJoin_ne_empty_left (a b : String) (ha : a ≠ "") : osJoin a b ≠ "" :=
  fun hee => osJoinL_ne_nil_left a.toList b.toList
    (fun hn => ha ((string_eq_empty_iff a).mpr hn))
    ((string_eq_empty_iff _).mp hee)

/-- String-level variant: joining a non-empty component never yields an
empty path. -/
theorem osJoin_ne_empty_right (a b : String) (hb : b ≠ "") : osJoin a b ≠ "" :=
  fun hee => osJoinL_ne_nil_right a.toList b.toList
    (fun hn => hb ((string_eq_empty_iff b).mpr hn))
    ((string_eq_empty_iff _).mp hee)

/-- The planned source path for a record that has a relative source path. -/
theorem planPaths_fst (recordingsDir exportDir : String) (dateInName : Bool)
    (localTimeStr label rel : String) (h : rel ≠ "") :
    (planPaths recordingsDir exportDir dateInName localTimeStr label rel).1 =
      osJoin recordingsDir rel := by
  show (if rel ≠ "" then osJoin recordingsDir rel else "") = _
  rw [if_pos h]

/-- The planned destination path for a record that has a relative source
path. -/
theorem planPaths_snd (recordingsDir exportDir : String) (dateInName : Bool)
    (localTimeStr label rel : String) (h : rel ≠ "")
    (ho : osJoin recordingsDir rel ≠ "") :
    (planPaths recordingsDir exportDir dateInName localTimeStr label rel).2 =
      osJoin exportDir
        (if dateInName then
          localTimeStr ++ "_" ++ label ++ (splitext (osJoin recordingsDir rel)).2
        else label ++ (splitext (osJoin recordingsDir rel)).2) := by
  show (if (if rel ≠ "" then osJoin recordingsDir rel else "") ≠ "" then _ else "") = _
  rw [if_pos h, if_pos ho]

/-- Claim C8: for every record with a non-empty relative source path the
planned destination is the export directory joined with the new filename:
formatted local timestamp, an underscore, the label and the extension of the source file (dot included) when date-in-name is enabled, otherwise the label
and the extension alone — the extension being determined by the relative
source path itself, as the specification words it. -/
theorem c8_new_filename (recordingsDir exportDir : String) (dateInName : Bool)
    (localTimeStr label rel : String) (h : rel ≠ "") :
    (planPaths recordingsDir exportDir dateInName localTimeStr label rel).2 =
      osJoin exportDir (newFilenameSpec dateInName localTimeStr label rel) := by
  have hold : osJoin recordingsDir rel ≠ "" := osJoin_ne_empty_right _ _ h
  have hext : (splitext (osJoin recordingsDir rel)).2 = (splitext rel).2 := by
    show String.mk (splitextL (osJoin recordingsDir rel).toList).2 =
      String.mk (splitextL rel.toList).2
    rw [show (osJoin recordingsDir rel).toList =
      osJoinL recordingsDir.toList rel.toList from rfl]
    rw [splitext_snd_osJoinL]
  rw [planPaths_snd recordingsDir exportDir dateInName localTimeStr label rel h hold,
    hext]
  unfold newFilenameSpec
  rfl

set_option maxRecDepth 2000 in
/-- Claim C8 witness at the scenario of the specification: label Meeting Notes,
relative source path rec1.m4a, date-in-name disabled yields the filename
Meeting Notes.m4a. -/
theorem c8_new_filename_witness :
    (planPaths "r" "e" false "" "Meeting Notes" "rec1.m4a").2 =
        osJoin "e" (newFilenameSpec false "" "Meeting Notes" "rec1.m4a") ∧
      newFilenameSpec false "" "Meeting Notes" "rec1.m4a" = "Meeting Notes.m4a" :=
  ⟨c8_new_filename "r" "e" false "" "Meeting Notes" "rec1.m4a" (by decide),
    by decide⟩

/-- Claim C6: given the non-empty export directory (which the program
creates before planning), the planned destination path is empty exactly
when the planned source path is empty; and a record with an empty relative
source path plans both paths empty, upon which the engine finalizes the
row as No File without touching the filesystem and without invoking the
key capture, in any mode. -/
theorem c6_empty_iff_no_file (recordingsDir exportDir : String) (dateInName : Bool)
    (localTimeStr label rel : String) (he : exportDir ≠ "") :
    ((planPaths recordingsDir exportDir dateInName localTimeStr label rel).2 = "" ↔
        (planPaths recordingsDir exportDir dateInName localTimeStr label rel).1 = "") ∧
      (rel = "" →
        planPaths recordingsDir exportDir dateInName localTimeStr label rel = ("", "") ∧
          ∀ (bulk : Bool) (input : List Nat) (fs : FS) (instant : ℚ),
            processRecord bulk input fs
                (planPaths recordingsDir exportDir dateInName localTimeStr label rel).1
                (planPaths recordingsDir exportDir dateInName localTimeStr label rel).2
                instant =
              some ⟨fs, "No File", false⟩) := by
  by_cases hrel : rel = ""
  · have hplan : planPaths recordingsDir exportDir dateInName localTimeStr label rel
        = ("", "") := by
      unfold planPaths
      simp [hrel]
    refine ⟨by rw [hplan], fun _ => ⟨hplan, fun bulk input fs instant => ?_⟩⟩
    rw [hplan]
    rfl
  · have h1 : osJoin recordingsDir rel ≠ "" := osJoin_ne_empty_right _ _ hrel
    refine ⟨?_, fun hco => absurd hco hrel⟩
    rw [planPaths_fst recordingsDir exportDir dateInName localTimeStr label rel hrel,
      planPaths_snd recordingsDir exportDir dateInName localTimeStr label rel hrel h1]
    exact ⟨fun hc => absurd hc (osJoin_ne_empty_left _ _ he),
      fun hc => absurd hc h1⟩

/-- Claim C6 witness at a concrete record without a source file. -/
theorem c6_empty_iff_no_file_witness :
    ((planPaths "r" "e" false "" "lab" "").2 = "" ↔
        (planPaths "r" "e" false "" "lab" "").1 = "") ∧
      ("" = (("") : String) →
        planPaths "r" "e" false "" "lab" "" = ("", "") ∧
          ∀ (bulk : Bool) (input : List Nat) (fs : FS) (instant : ℚ),
            processRecord bulk input fs (planPaths "r" "e" false "" "lab" "").1
                (planPaths "r" "e" false "" "lab" "").2 instant =
              some ⟨fs, "No File", false⟩) :=
  c6_empty_iff_no_file "r" "e" false "" "lab" "" (by decide)

/-- Claim C5: in interactive mode, for a record with a non-empty source
path, the Escape key (27) finalizes the row as exactly Not Exported and
leaves the filesystem unchanged (in particular nothing is written to the
destination path), while the Enter key (10) copies the bytes of the source file
to the destination path — overwriting whatever was there — sets both the
access and the modification timestamp of the destination to the computed
whole-second local timestamp, and finalizes the row as exactly
Exported!. -/
theorem c5_escape_enter (ks : List Nat) (fs : FS) (pathOld pathNew : String)
    (instant : ℚ) (hp : pathOld ≠ "") :
    processRecord false (27 :: ks) fs pathOld pathNew instant =
        some ⟨fs, "Not Exported", true⟩ ∧
      ∀ f : FileData, fs pathOld = some f →
        processRecord false (10 :: ks) fs pathOld pathNew instant =
          some ⟨fsUpdate fs pathNew
              ⟨f.contents, mktimeWhole instant, mktimeWhole instant⟩,
            "Exported!", true⟩ := by
  constructor
  · simp [processRecord, captureKey, readLoop, hp]
  · intro f hf
    simp [processRecord, captureKey, readLoop, hp, hf]

/-- Claim C5 witness at a concrete record and filesystem. -/
theorem c5_escape_enter_witness :
    (processRecord false [27]
          (fun p => if p = "src" then some ⟨[1, 2], 0, 0⟩ else none)
          "src" "dst" 0 =
        some ⟨(fun p => if p = "src" then some ⟨[1, 2], 0, 0⟩ else none),
          "Not Exported", true⟩) ∧
      processRecord false [10]
          (fun p => if p = "src" then some ⟨[1, 2], 0, 0⟩ else none)
          "src" "dst" 0 =
        some ⟨fsUpdate (fun p => if p = "src" then some ⟨[1, 2], 0, 0⟩ else none)
            "dst" ⟨[1, 2], mktimeWhole 0, mktimeWhole 0⟩, "Exported!", true⟩ :=
  ⟨(c5_escape_enter [] (fun p => if p = "src" then some ⟨[1, 2], 0, 0⟩ else none)
      "src" "dst" 0 (by decide)).1,
    (c5_escape_enter [] (fun p => if p = "src" then some ⟨[1, 2], 0, 0⟩ else none)
      "src" "dst" 0 (by decide)).2 ⟨[1, 2], 0, 0⟩ rfl⟩

/-- Claim C9: in bulk mode the interactive key capture is never invoked
(every produced step result reports the capture as unused), and every
record with a non-empty source path whose source file exists reaches the
Exported terminal state, its decision forced to key 10 without any
blocking read of the input. -/
theorem c9_bulk_no_capture (input : List Nat) (fs : FS) (pathOld pathNew : String)
    (instant : ℚ) :
    (∀ r : StepResult,
        processRecord true input fs pathOld pathNew instant = some r →
          r.usedCapture = false) ∧
      (pathOld ≠ "" → ∀ f : FileData, fs pathOld = some f →
        processRecord true input fs pathOld pathNew instant =
          some ⟨fsUpdate fs pathNew
              ⟨f.contents, mktimeWhole instant, mktimeWhole instant⟩,
            "Exported!", false⟩) := by
  constructor
  · intro r hr
    by_cases hp : pathOld = ""
    · simp [processRecord, hp] at hr
      rw [← hr]
    · cases hfp : fs pathOld with
      | none => simp [processRecord, hp, hfp] at hr
      | some f =>
          simp [processRecord, hp, hfp] at hr
          rw [← hr]
  · intro hp f hf
    simp [processRecord, hp, hf]

/-- Claim C9 witness at a concrete record and filesystem. -/
theorem c9_bulk_no_capture_witness :
    (processRecord true []
          (fun p => if p = "s2" then some ⟨[3], 1, 1⟩ else none)
          "s2" "d2" 1 =
        some ⟨fsUpdate (fun p => if p = "s2" then some ⟨[3], 1, 1⟩ else none)
            "d2" ⟨[3], mktimeWhole 1, mktimeWhole 1⟩, "Exported!", false⟩) ∧
      (⟨fsUpdate (fun p => if p = "s2" then some ⟨[3], 1, 1⟩ else none)
            "d2" ⟨[3], mktimeWhole 1, mktimeWhole 1⟩, "Exported!", false⟩ :
          StepResult).usedCapture = false :=
  ⟨(c9_bulk_no_capture [] (fun p => if p = "s2" then some ⟨[3], 1, 1⟩ else none)
      "s2" "d2" 1).2 (by decide) ⟨[3], 1, 1⟩ rfl,
    (c9_bulk_no_capture [] (fun p => if p = "s2" then some ⟨[3], 1, 1⟩ else none)
      "s2" "d2" 1).1 _
      ((c9_bulk_no_capture [] (fun p => if p = "s2" then some ⟨[3], 1, 1⟩ else none)
        "s2" "d2" 1).2 (by decide) ⟨[3], 1, 1⟩ rfl)⟩

/-- Padding a cell that fits its column yields exactly the column width. -/
theorem padCell_length (w : Nat) (s : String) (h : s.length ≤ w) :
    (padCell w s).length = w := by
  unfold padCell
  rw [String.length_append]
  show s.length + (List.replicate (w - s.length) ' ').length = w
  rw [List.length_replicate]
  omega

/-- Shortened paths never exceed the column width. -/
theorem truncLast_length_le (w : Nat) (s : String) (h3 : 3 ≤ w) :
    (truncLast w s).length ≤ w := by
  unfold truncLast
  by_cases hlt : s.length < w - 3
  · rw [if_pos hlt]; omega
  · rw [if_neg hlt]
    rw [String.length_append, show ("..." : String).length = 3 from rfl]
    show 3 + (s.toList.drop (s.length - (w - 3))).length ≤ w
    rw [List.length_drop]
    have hl : s.toList.length = s.length := rfl
    omega

/-- Claim C2, amended: the rendered body row has the constant length 150
provided the date, duration and status cells do not exceed their column
widths (19, 11 and 12); the two path cells may be arbitrary because they
are shortened to at most their widths first. The renderer itself pads but
never truncates, so a non-path cell longer than its column width would
lengthen the row. -/
theorem c2_row_length_amended (c0 c1 c2 c3 c4 : String)
    (h0 : c0.length ≤ 19) (h1 : c1.length ≤ 11) (h4 : c4.length ≤ 12) :
    (renderRecordRow c0 c1 c2 c3 c4).length = 150 := by
  unfold renderRecordRow bodyRow
  simp only [String.length_append]
  rw [padCell_length 19 c0 h0, padCell_length 11 c1 h1, padCell_length 12 c4 h4,
    padCell_length 32 _ (truncLast_length_le 32 c2 (by norm_num)),
    padCell_length 60 _ (truncLast_length_le 60 c3 (by norm_num))]
  decide

/-- Claim C2 witness at concrete cells. -/
theorem c2_row_length_amended_witness :
    ("date".length ≤ 19 ∧ "dur".length ≤ 11 ∧ "ok".length ≤ 12) ∧
      (renderRecordRow "date" "dur" "oldpath" "newpath" "ok").length = 150 :=
  ⟨⟨by decide, by decide, by decide⟩,
    c2_row_length_amended "date" "dur" "oldpath" "newpath" "ok"
      (by decide) (by decide) (by decide)⟩

/-- Digit characters are never a dot. -/
theorem digitChar_ne_dot (n : Nat) (h : n < 10) : Nat.digitChar n ≠ '.' := by
  interval_cases n <;> decide

/-- Two-digit zero-padded numbers contain no dot. -/
theorem dot_not_mem_fmt02 (n : Nat) : '.' ∉ (fmt02 n).toList := by
  intro hm
  have hm2 : '.' ∈ [Nat.digitChar (n / 10 % 10), Nat.digitChar (n % 10)] := hm
  simp only [List.mem_cons, List.not_mem_nil, or_false] at hm2
  rcases hm2 with he | he <;>
    exact digitChar_ne_dot _ (Nat.mod_lt _ (by norm_num)) he.symm

/-- Six-digit zero-padded numbers contain no dot. -/
theorem dot_not_mem_fmt06 (n : Nat) : '.' ∉ (fmt06 n).toList := by
  intro hm
  have hm2 : '.' ∈ [Nat.digitChar (n / 100000 % 10), Nat.digitChar (n / 10000 % 10),
      Nat.digitChar (n / 1000 % 10), Nat.digitChar (n / 100 % 10),
      Nat.digitChar (n / 10 % 10), Nat.digitChar (n % 10)] := hm
  simp only [List.mem_cons, List.not_mem_nil, or_false] at hm2
  rcases hm2 with he | he | he | he | he | he <;>
    exact digitChar_ne_dot _ (Nat.mod_lt _ (by norm_num)) he.symm

/-- Decimal representations of hour values: no dot, and one digit below
ten, two digits from ten to twenty-three. -/
theorem repr_lt24_facts :
    ∀ n, n < 24 → ('.' ∉ (Nat.repr n).toList ∧
      (Nat.repr n).length = (if n < 10 then 1 else 2)) := by decide

/-- The hours-minutes-seconds part prints no dot. -/
theorem dot_not_mem_hms (hh mm ss : Nat) (hhlt : hh < 24) :
    '.' ∉ (Nat.repr hh ++ ":" ++ fmt02 mm ++ ":" ++ fmt02 ss).toList := by
  intro hm
  simp only [toList_append, List.mem_append] at hm
  rcases hm with (((hm | hm) | hm) | hm) | hm
  · exact (repr_lt24_facts hh hhlt).1 hm
  · exact absurd hm (by decide)
  · exact dot_not_mem_fmt02 mm hm
  · exact absurd hm (by decide)
  · exact dot_not_mem_fmt02 ss hm

/-- Length of the hours-minutes-seconds part. -/
theorem hms_length (hh mm ss : Nat) :
    (Nat.repr hh ++ ":" ++ fmt02 mm ++ ":" ++ fmt02 ss).length =
      (Nat.repr hh).length + 6 := by
  simp only [String.length_append]
  rw [show (fmt02 mm).length = 2 from rfl, show (fmt02 ss).length = 2 from rfl,
    show (":" : String).length = 1 from rfl]

/-- The single-digit-hour fix-up on a string shaped hours, colon, minutes,
colon, seconds, dot, fraction with two-character middle and fraction parts
always yields length eleven in the claimed shape. -/
theorem duration_shape_aux (H B C D : String) (hB : B.length = 2)
    (hC : C.length = 2) (hD : D.length = 2)
    (hH : H.length = 1 ∨ H.length = 2) :
    (padHour ((H ++ ":" ++ B ++ ":" ++ C ++ ".") ++ D)).length = 11 ∧
      ∃ a b c d : String,
        padHour ((H ++ ":" ++ B ++ ":" ++ C ++ ".") ++ D) =
          a ++ ":" ++ b ++ ":" ++ c ++ "." ++ d ∧
          a.length = 2 ∧ b.length = 2 ∧ c.length = 2 ∧ d.length = 2 := by
  have hlen : ((H ++ ":" ++ B ++ ":" ++ C ++ ".") ++ D).length = H.length + 9 := by
    simp only [String.length_append]
    rw [hB, hC, hD, show (":" : String).length = 1 from rfl,
      show ("." : String).length = 1 from rfl]
  rcases hH with h1 | h2
  · have h10 : ((H ++ ":" ++ B ++ ":" ++ C ++ ".") ++ D).length = 10 := by
      rw [hlen, h1]
    have hfix : padHour ((H ++ ":" ++ B ++ ":" ++ C ++ ".") ++ D) =
        "0" ++ ((H ++ ":" ++ B ++ ":" ++ C ++ ".") ++ D) := by
      unfold padHour
      rw [if_pos h10]
    rw [hfix]
    constructor
    · rw [String.length_append, h10, show ("0" : String).length = 1 from rfl]
    · refine ⟨"0" ++ H, B, C, D, ?_, ?_, hB, hC, hD⟩
      · simp [String.append_assoc]
      · rw [String.length_append, h1, show ("0" : String).length = 1 from rfl]
  · have hne : ¬((H ++ ":" ++ B ++ ":" ++ C ++ ".") ++ D).length = 10 := by
      rw [hlen, h2]
      omega
    have hfix : padHour ((H ++ ":" ++ B ++ ":" ++ C ++ ".") ++ D) =
        (H ++ ":" ++ B ++ ":" ++ C ++ ".") ++ D := by
      unfold padHour
      rw [if_neg hne]
    rw [hfix]
    exact ⟨by rw [hlen, h2], H, B, C, D, rfl, h2, hB, hC, hD⟩

/-- The duration cell of a whole-second duration below one day. -/
theorem durationStr_eq_whole (t : Nat) (hdays : t / 1000000 / 86400 = 0)
    (hus : t % 1000000 = 0) :
    durationStr t = padHour ((Nat.repr (t / 1000000 / 3600 % 24) ++ ":" ++
      fmt02 (t / 1000000 / 60 % 60) ++ ":" ++ fmt02 (t / 1000000 % 60) ++ ".") ++
        "00") := by
  have hh24 : t / 1000000 / 3600 % 24 < 24 := Nat.mod_lt _ (by norm_num)
  have hstr : tdStr t = Nat.repr (t / 1000000 / 3600 % 24) ++ ":" ++
      fmt02 (t / 1000000 / 60 % 60) ++ ":" ++ fmt02 (t / 1000000 % 60) := by
    unfold tdStr
    rw [if_pos hdays, if_pos hus, String.append_empty]
  unfold durationStr
  rw [hstr, if_neg (dot_not_mem_hms _ _ _ hh24),
    show (".00" : String) = "." ++ "00" from by decide, ← String.append_assoc]

/-- The duration cell of a fractional-second duration below one day. -/
theorem durationStr_eq_frac (t : Nat) (hdays : t / 1000000 / 86400 = 0)
    (hus : ¬t % 1000000 = 0) :
    durationStr t = padHour ((Nat.repr (t / 1000000 / 3600 % 24) ++ ":" ++
      fmt02 (t / 1000000 / 60 % 60) ++ ":" ++ fmt02 (t / 1000000 % 60) ++ ".") ++
        String.mk [Nat.digitChar (t % 1000000 / 100000 % 10),
          Nat.digitChar (t % 1000000 / 10000 % 10)]) := by
  have hh24 : t / 1000000 / 3600 % 24 < 24 := Nat.mod_lt _ (by norm_num)
  have hstr : tdStr t = (Nat.repr (t / 1000000 / 3600 % 24) ++ ":" ++
      fmt02 (t / 1000000 / 60 % 60) ++ ":" ++ fmt02 (t / 1000000 % 60)) ++
        ("." ++ fmt06 (t % 1000000)) := by
    unfold tdStr
    rw [if_pos hdays, if_neg hus]
  have hlist : (tdStr t).toList = (Nat.repr (t / 1000000 / 3600 % 24) ++ ":" ++
      fmt02 (t / 1000000 / 60 % 60) ++ ":" ++ fmt02 (t / 1000000 % 60)).toList ++
        '.' :: (fmt06 (t % 1000000)).toList := by
    rw [hstr]
    simp only [toList_append]
    rfl
  have hdotmem : '.' ∈ (tdStr t).toList := by
    rw [hlist]
    exact List.mem_append_right _ (List.mem_cons_self _ _)
  have hsplit : splitAtLast '.' (tdStr t).toList =
      ((Nat.repr (t / 1000000 / 3600 % 24) ++ ":" ++
        fmt02 (t / 1000000 / 60 % 60) ++ ":" ++ fmt02 (t / 1000000 % 60)).toList ++
          ['.'], (fmt06 (t % 1000000)).toList) := by
    rw [hlist]
    exact splitAtLast_append_sep _ _ _ (dot_not_mem_fmt06 _)
  unfold durationStr
  rw [if_pos hdotmem, hsplit]
  simp only [mk_append_eq, mk_toList_eq, mk_dot_eq, List.take_succ_cons,
    List.take_zero]
  rfl

/-- Every duration of less than one day (in whole microseconds) renders as
an eleven-character cell shaped hours, minutes, seconds and a two-digit
fraction. -/
theorem durationStr_shape (t : Nat) (ht : t < 86400000000) :
    (durationStr t).length = 11 ∧
      ∃ a b c d : String,
        durationStr t = a ++ ":" ++ b ++ ":" ++ c ++ "." ++ d ∧
          a.length = 2 ∧ b.length = 2 ∧ c.length = 2 ∧ d.length = 2 := by
  have hdays : t / 1000000 / 86400 = 0 := by omega
  have hh24 : t / 1000000 / 3600 % 24 < 24 := Nat.mod_lt _ (by norm_num)
  have hH : (Nat.repr (t / 1000000 / 3600 % 24)).length = 1 ∨
      (Nat.repr (t / 1000000 / 3600 % 24)).length = 2 := by
    rcases Nat.lt_or_ge (t / 1000000 / 3600 % 24) 10 with h | h
    · left
      rw [(repr_lt24_facts _ hh24).2, if_pos h]
    · right
      rw [(repr_lt24_facts _ hh24).2, if_neg (by omega)]
  by_cases hus : t % 1000000 = 0
  · rw [durationStr_eq_whole t hdays hus]
    exact duration_shape_aux _ _ _ _ rfl rfl rfl hH
  · rw [durationStr_eq_frac t hdays hus]
    exact duration_shape_aux _ _ _ _ rfl rfl rfl hH

/-- Rounding a nonnegative rational is nonnegative. -/
theorem pyRound_nonneg (q : ℚ) (h : 0 ≤ q) : 0 ≤ pyRound q := by
  have hf : (0 : Int) ≤ Int.floor q := Int.floor_nonneg.mpr h
  unfold pyRound
  split
  · exact hf
  · split
    · omega
    · split
      · exact hf
      · omega

set_option maxRecDepth 4000 in
/-- Claim C10, counterexample: the duration value 86399.9999996 seconds
lies in the half-open interval from 0 to 86400, yet `timedelta` rounds it
to whole microseconds, reaching exactly one day, so the rendered duration
cell is the seventeen-character "1 day, 0:00:00.00" rather than an
eleven-character cell. -/
theorem c10_counterexample :
    (0 : ℚ) ≤ 863999999996 / 10000000 ∧
      (863999999996 : ℚ) / 10000000 < 86400 ∧
      (durationDisplay (863999999996 / 10000000)).length = 17 := by
  refine ⟨by norm_num, by norm_num, ?_⟩
  have h1 : (863999999996 : ℚ) / 10000000 * 1000000 = 431999999998 / 5 := by
    norm_num
  have h2 : Int.floor ((431999999998 : ℚ) / 5) = 86399999999 := by
    rw [Int.floor_eq_iff]
    norm_num
  have h3 : pyRound ((863999999996 : ℚ) / 10000000 * 1000000) = 86400000000 := by
    unfold pyRound
    rw [h1, h2]
    norm_num
  unfold durationDisplay
  rw [h3]
  decide

/-- Claim C10, amended: for every nonnegative duration value whose
microsecond-rounded magnitude stays below one day, the duration cell has
length exactly eleven and the shape hours, colon, minutes, colon, seconds,
dot, fraction with two characters in each part (sub-second digits beyond
two truncated, ".00" appended for whole seconds, a leading zero prepended
for a single-digit hour). Values within the last half microsecond below
86400 seconds round up to one day and render longer. -/
theorem c10_duration_amended (x : ℚ) (h0 : 0 ≤ x)
    (h1 : pyRound (x * 1000000) < 86400000000) :
    (durationDisplay x).length = 11 ∧
      ∃ a b c d : String,
        durationDisplay x = a ++ ":" ++ b ++ ":" ++ c ++ "." ++ d ∧
          a.length = 2 ∧ b.length = 2 ∧ c.length = 2 ∧ d.length = 2 := by
  have hnn : 0 ≤ pyRound (x * 1000000) :=
    pyRound_nonneg _ (mul_nonneg h0 (by norm_num))
  have ht : (pyRound (x * 1000000)).toNat < 86400000000 := by omega
  exact durationStr_shape _ ht

/-- Claim C10 witness at the concrete duration of half a second. -/
theorem c10_duration_amended_witness :
    ((0 : ℚ) ≤ 1 / 2 ∧ pyRound ((1 / 2 : ℚ) * 1000000) < 86400000000) ∧
      ((durationDisplay (1 / 2)).length = 11 ∧
        ∃ a b c d : String,
          durationDisplay (1 / 2) = a ++ ":" ++ b ++ ":" ++ c ++ "." ++ d ∧
            a.length = 2 ∧ b.length = 2 ∧ c.length = 2 ∧ d.length = 2) := by
  have e1 : (1 / 2 : ℚ) * 1000000 = 500000 := by norm_num
  have e2 : Int.floor ((500000 : ℚ)) = 500000 := by
    rw [Int.floor_eq_iff]
    norm_num
  have hv : pyRound ((1 / 2 : ℚ) * 1000000) = 500000 := by
    unfold pyRound
    rw [e1, e2]
    norm_num
  refine ⟨⟨by norm_num, by rw [hv]; norm_num⟩, ?_⟩
  exact c10_duration_amended (1 / 2) (by norm_num) (by rw [hv]; norm_num)

end Theorems

end VoiceMemos
